import Mathlib

/-!
Verification of the badge-rendering core of the `visitor-badge` repository.

The Rust sources under `src/` are shallowly embedded below: `f32` values are
modelled as rationals, fallible or panicking paths as `Option`, and the
externally owned `ab_glyph` font handle as a record of metric functions.
Definitions keep the names of the Rust items they embed.
-/

namespace VisitorBadge

/-- Embeds Rust `char::is_control` (Unicode category Cc: U+0000–U+001F and
U+007F–U+009F), used by `measure_line`'s character filter. -/
def charIsControl (c : Char) : Bool :=
  decide (c.toNat < 32) || (decide (127 ≤ c.toNat) && decide (c.toNat ≤ 159))

/-- The parts of an `ab_glyph` scaled font that `measure_line` reads: per-glyph
horizontal advance, pairwise kerning, and the three vertical metrics, each as a
function of the pixel scale.  The font handle is an external collaborator; a
value of this type stands for one concrete font. -/
structure Font where
  advance : ℚ → Char → ℚ
  kern : ℚ → Char → Char → ℚ
  ascent : ℚ → ℚ
  descent : ℚ → ℚ
  lineGap : ℚ → ℚ

/-- A positioned glyph: the pieces of `ab_glyph::Glyph` that the width
computation reads (`id` and `position.x`). -/
structure Glyph where
  id : Char
  x : ℚ
deriving DecidableEq

/-- The mutable loop state of `measure_line`: the caret x position and the
`first_glyph` / `last_glyph` options. -/
structure MeasureState where
  caretX : ℚ
  firstG : Option Glyph
  lastG : Option Glyph
deriving DecidableEq

/-- One iteration of the `for c in text.chars().filter(...)` loop of
`measure_line` (badge.rs lines 16–28). -/
def measureStep (f : Font) (sc : ℚ) (st : MeasureState) (c : Char) : MeasureState :=
  let x1 := match st.lastG with
    | some prev => st.caretX + f.kern sc prev.id c
    | none => st.caretX
  let g : Glyph := ⟨c, x1⟩
  { caretX := x1 + f.advance sc c
    firstG := match st.firstG with
      | some g0 => some g0
      | none => some g
    lastG := some g }

/-- Embeds `measure_line` (badge.rs lines 10–39).  The Rust code unwraps
`first_glyph` and `last_glyph`, which panics when the filtered text is empty;
the panic is modelled as `none`. -/
def measure_line (f : Font) (text : String) (sc : ℚ) : Option (ℚ × ℚ) :=
  let chars := text.data.filter (fun c => !charIsControl c)
  let st := chars.foldl (measureStep f sc) ⟨0, none, none⟩
  let height := f.ascent sc - f.descent sc + f.lineGap sc
  match st.firstG, st.lastG with
  | some fg, some lg => some (((⌈lg.x + f.advance sc lg.id - fg.x⌉ : ℤ) : ℚ), height)
  | _, _ => none

/-- Rust `as i32` truncation toward zero, on the rational model of `f32`. -/
def rustTrunc (q : ℚ) : ℤ := if 0 ≤ q then ⌊q⌋ else ⌈q⌉

/-- Rust `f32::round` (round half away from zero), on the rational model. -/
def rustRound (q : ℚ) : ℚ :=
  if 0 ≤ q then ((⌊q + 1 / 2⌋ : ℤ) : ℚ) else ((⌈q - 1 / 2⌉ : ℤ) : ℚ)

/-- Rust `Rem::rem` on `f32`: remainder with the sign of the dividend. -/
def f32Rem (a b : ℚ) : ℚ := a - b * ((rustTrunc (a / b) : ℤ) : ℚ)

/-- Embeds `round_up_to_odd` (badge.rs lines 124–130): add one when
`val.rem(2.0) as i32 == 0`, then `round()` the selected branch. -/
def round_up_to_odd (val : ℚ) : ℚ :=
  rustRound (if rustTrunc (f32Rem val 2) = 0 then val + 1 else val)

/-- Embeds `preferred_width_of` (badge.rs lines 132–136). -/
def preferred_width_of (text : String) (f : Font) (sc : ℚ) : Option ℚ :=
  (measure_line f text sc).map (fun wh => round_up_to_odd wh.1 * (1.0345 : ℚ))

lemma rustTrunc_intCast (m : ℤ) : rustTrunc (m : ℚ) = m := by
  unfold rustTrunc
  split <;> simp

lemma rustRound_intCast (m : ℤ) : rustRound (m : ℚ) = (m : ℚ) := by
  unfold rustRound
  split
  · rw [add_comm, Int.floor_add_int]
    norm_num
  · rw [sub_eq_add_neg, add_comm, Int.ceil_add_int]
    norm_num

lemma rto_intCast (m : ℤ) :
    round_up_to_odd (m : ℚ) = ((if m % 2 = 0 then m + 1 else m : ℤ) : ℚ) := by
  unfold round_up_to_odd
  rcases Int.even_or_odd m with ⟨k, hk⟩ | ⟨k, hk⟩
  · have hdiv : (m : ℚ) / 2 = (k : ℚ) := by subst hk; push_cast; ring
    have hrem : f32Rem (m : ℚ) 2 = 0 := by
      unfold f32Rem
      rw [hdiv, rustTrunc_intCast]
      subst hk; push_cast; ring
    have hcond : rustTrunc (f32Rem (m : ℚ) 2) = 0 := by
      rw [hrem]; simpa using rustTrunc_intCast 0
    have hm2 : m % 2 = 0 := by omega
    rw [if_pos hcond, if_pos hm2]
    have : (m : ℚ) + 1 = ((m + 1 : ℤ) : ℚ) := by push_cast; ring
    rw [this, rustRound_intCast]
  · have hdiv : (m : ℚ) / 2 = (k : ℚ) + 1 / 2 := by subst hk; push_cast; ring
    have htr : rustTrunc ((m : ℚ) / 2) = if 0 ≤ k then k else k + 1 := by
      rw [hdiv]
      unfold rustTrunc
      rcases le_or_lt 0 k with hk0 | hk0
      · have hq : (0 : ℚ) ≤ (k : ℚ) + 1 / 2 := by
          have : (0 : ℚ) ≤ (k : ℚ) := by exact_mod_cast hk0
          linarith
        rw [if_pos hq, if_pos hk0, add_comm, Int.floor_add_int]
        norm_num
      · have hk1 : (k : ℚ) ≤ -1 := by exact_mod_cast Int.le_sub_one_of_lt hk0
        have hq : ¬ (0 : ℚ) ≤ (k : ℚ) + 1 / 2 := by linarith
        rw [if_neg hq, if_neg (not_le.mpr hk0), add_comm, Int.ceil_add_int]
        have hc : (⌈(1 / 2 : ℚ)⌉ : ℤ) = 1 := by
          rw [Int.ceil_eq_iff]
          norm_num
        rw [hc]; ring
    have hrem : rustTrunc (f32Rem (m : ℚ) 2) ≠ 0 := by
      unfold f32Rem
      rw [htr]
      rcases le_or_lt 0 k with hk0 | hk0
      · rw [if_pos hk0]
        have : (m : ℚ) - 2 * (k : ℚ) = 1 := by subst hk; push_cast; ring
        rw [this]
        have h1 : rustTrunc (1 : ℚ) = 1 := by
          have := rustTrunc_intCast 1
          simpa using this
        rw [h1]; norm_num
      · rw [if_neg (not_le.mpr hk0)]
        have : (m : ℚ) - 2 * ((k + 1 : ℤ) : ℚ) = -1 := by subst hk; push_cast; ring
        rw [this]
        have h1 : rustTrunc (-1 : ℚ) = -1 := by
          have := rustTrunc_intCast (-1)
          simpa using this
        rw [h1]; norm_num
    have hm2 : m % 2 ≠ 0 := by omega
    rw [if_neg hrem, if_neg hm2, rustRound_intCast]

/-- C3: for every nonnegative integer N presented as the float input,
`round_up_to_odd` returns N + 1 when N is even and N when N is odd. -/
theorem round_up_to_odd_nat (n : ℕ) :
    round_up_to_odd (n : ℚ) = if n % 2 = 0 then (n : ℚ) + 1 else (n : ℚ) := by
  have h := rto_intCast (n : ℤ)
  have hcast : (((n : ℤ) : ℚ)) = (n : ℚ) := by push_cast; ring
  rw [hcast] at h
  rw [h]
  by_cases hn : n % 2 = 0
  · have h2 : (n : ℤ) % 2 = 0 := by omega
    rw [if_pos h2, if_pos hn]; push_cast; ring
  · have h2 : (n : ℤ) % 2 ≠ 0 := by omega
    rw [if_neg h2, if_neg hn]; push_cast; ring

/-- Modelled from the spec: a resolved color, three 8-bit channels
(§3 ResolvedColor).  The repository's `color.rs` is not under `src/`. -/
structure Color where
  r : ℕ
  g : ℕ
  b : ℕ
deriving DecidableEq

/-- Value of one hexadecimal digit character, `none` for any other char. -/
def hexDigitVal (c : Char) : Option ℕ :=
  if decide ('0' ≤ c) && decide (c ≤ '9') then some (c.toNat - 48)
  else if decide ('a' ≤ c) && decide (c ≤ 'f') then some (c.toNat - 87)
  else if decide ('A' ≤ c) && decide (c ≤ 'F') then some (c.toNat - 55)
  else none

/-- Modelled from the spec: table of recognized named colors (§4.1; `color.rs`
is not under `src/`).  Only the names the repository actually passes matter. -/
def namedColors : List (String × Color) :=
  [("orange", ⟨255, 165, 0⟩), ("red", ⟨255, 0, 0⟩), ("green", ⟨0, 128, 0⟩),
   ("blue", ⟨0, 0, 255⟩), ("white", ⟨255, 255, 255⟩), ("black", ⟨0, 0, 0⟩),
   ("yellow", ⟨255, 255, 0⟩), ("gray", ⟨128, 128, 128⟩)]

/-- Modelled from the spec: `resolve(token) -> optional ResolvedColor` (§4.1;
`color.rs` is not under `src/`).  A present, recognized token — a named color
or a `#rgb` / `#rrggbb` literal — yields a triple; `none` or an unrecognized
token yields no value. -/
def color_by_name (token : Option String) : Option Color :=
  match token with
  | none => none
  | some s =>
    match s.data with
    | '#' :: [d1, d2, d3] =>
      match hexDigitVal d1, hexDigitVal d2, hexDigitVal d3 with
      | some x, some y, some z => some ⟨17 * x, 17 * y, 17 * z⟩
      | _, _, _ => none
    | '#' :: [d1, d2, d3, d4, d5, d6] =>
      match hexDigitVal d1, hexDigitVal d2, hexDigitVal d3,
            hexDigitVal d4, hexDigitVal d5, hexDigitVal d6 with
      | some x1, some x2, some y1, some y2, some z1, some z2 =>
        some ⟨16 * x1 + x2, 16 * y1 + y2, 16 * z1 + z2⟩
      | _, _, _, _, _, _ => none
    | _ => (namedColors.find? (fun p => p.1 == s)).map (fun p => p.2)

/-- Modelled from the spec: perceived brightness as the weighted sum
0.299·R + 0.587·G + 0.114·B normalized to the unit interval (§4.1). -/
def brightness (c : Color) : ℚ :=
  ((299 * c.r + 587 * c.g + 114 * c.b : ℕ) : ℚ) / 255000

/-- Modelled from the spec: the textual form of a resolved color used for fill
attributes (`color.rs` is not under `src/`), rendered as a `#rrggbb` literal. -/
def color_to_string (c : Color) : String :=
  ⟨'#' :: [Nat.digitChar (c.r / 16 % 16), Nat.digitChar (c.r % 16),
           Nat.digitChar (c.g / 16 % 16), Nat.digitChar (c.g % 16),
           Nat.digitChar (c.b / 16 % 16), Nat.digitChar (c.b % 16)]⟩

/-- Embeds `colors_for_background` (badge.rs lines 138–150). -/
def colors_for_background (color_str : String) : Option (String × String) :=
  match color_by_name (some color_str) with
  | none => none
  | some parsed_color =>
    if brightness parsed_color ≤ (0.69 : ℚ) then some ("#fff", "#010101")
    else some ("#333", "#ccc")

/-- Embeds the `Style` enum (badge.rs lines 49–59). -/
inductive Style where
  | Plastic
  | Flat
  | FlatSquare
deriving DecidableEq

/-- Embeds the `FontFamily` enum (badge.rs lines 62–69). -/
inductive FontFamily where
  | Default
  | Custom (val : String)
deriving DecidableEq

def FONT_FAMILY : String := "Verdana,Geneva,DejaVu Sans,sans-serif"

def FONT_SCALE_UP_FACTOR : ℚ := 10

def FONT_SCALE_DOWN_VALUE : String := "scale(.1)"

def WIDTH_FONT_SCALE : ℚ := 11

/-- Embeds `FontFamily::string` (badge.rs lines 71–78). -/
def FontFamily.string : FontFamily → String
  | .Default => FONT_FAMILY
  | .Custom val => val

/-- Embeds the `Metadata` input record (badge.rs lines 81–106). -/
structure Metadata where
  style : Style
  label : String
  message : String
  font : Font
  font_family : FontFamily
  label_color : Option String
  color : Option String

/-- An attribute value: a plain string, or a number that the Rust code turns
into its decimal Display text when the attribute is emitted. -/
inductive Val where
  | str : String → Val
  | num : ℚ → Val
deriving DecidableEq

/-- Modelled from the spec: a document node (§3, §4.6; `xml.rs` is not under
`src/`): a tag name, ordered attribute pairs with duplicates permitted, and
ordered children that are nodes or raw text runs. -/
inductive XNode where
  | elem : String → List (String × Val) → List XNode → XNode
  | text : String → XNode

/-- The attribute list of a node (empty for a text run). -/
def XNode.attrsOf : XNode → List (String × Val)
  | .elem _ a _ => a
  | .text _ => []

/-- The tag of a node (empty for a text run). -/
def XNode.tagOf : XNode → String
  | .elem t _ _ => t
  | .text _ => ""

/-- Modelled from the spec: escaping of text runs and attribute values (§4.6):
ampersand first, then the angle brackets and the double quote. -/
def escChar (c : Char) : List Char :=
  if c = '&' then "&amp;".data
  else if c = '<' then "&lt;".data
  else if c = '>' then "&gt;".data
  else if c = '"' then "&quot;".data
  else [c]

def escape (s : String) : String := ⟨(s.data.map escChar).flatten⟩

/-- Modelled from the spec: the decimal Display rendering of a numeric
attribute value; only its determinism matters to the claims below. -/
def numStr (q : ℚ) : String :=
  if q.den = 1 then toString q.num else toString q

def Val.string : Val → String
  | .str s => s
  | .num q => numStr q

def attrStr (a : String × Val) : String :=
  " " ++ a.1 ++ "=\"" ++ escape a.2.string ++ "\""

mutual

/-- Modelled from the spec: depth-first serialization (§4.6; `xml.rs` is not
under `src/`): open tag with attributes in insertion order, children in order,
closing tag; self-closing only for childless nodes. -/
def serNode : XNode → String
  | .text t => escape t
  | .elem tag attrs children =>
    "<" ++ tag ++ String.join (attrs.map attrStr) ++
      (match children with
       | [] => "/>"
       | c :: cs => ">" ++ serNode c ++ serNodes cs ++ "</" ++ tag ++ ">")

def serNodes : List XNode → String
  | [] => ""
  | c :: cs => serNode c ++ serNodes cs

end

/-- Modelled from the spec: `serialize(document) -> text` over the pushed
root nodes (§4.6). -/
def xmlRender (doc : List XNode) : String := serNodes doc

/-- Embeds `GradientStop` (badge.rs lines 108–112). -/
structure GradientStop where
  offset : String
  stop_color : String
  stop_opacity : String

/-- Embeds `GradientStop::into_attributes` (badge.rs lines 114–122). -/
def GradientStop.into_attributes (g : GradientStop) : List (String × Val) :=
  [("offset", .str g.offset), ("stop-color", .str g.stop_color),
   ("stop-opacity", .str g.stop_opacity)]

/-- Embeds the `Renderer` state struct (badge.rs lines 161–181); the boxed
`Badger` strategy object is represented by the selected `Style` variant. -/
structure Renderer where
  horizontal_padding : ℚ
  label_margin : ℚ
  message_margin : ℚ
  label_width : ℚ
  message_width : ℚ
  left_width : ℚ
  right_width : ℚ
  font_family : String
  width : ℚ
  label_color : Color
  color : Color
  label : String
  message : String
  accessible_text : String
  style : Style
deriving DecidableEq

/-- Modelled from the spec: the per-variant fixed badge height (§4.4).  The
style modules are not under `src/` and §9 leaves the numeric constants open;
Plastic is taller than the flat variants per §4.4. -/
def Style.height : Style → ℚ
  | .Plastic => 24
  | .Flat => 20
  | .FlatSquare => 20

/-- Modelled from the spec: the per-variant vertical text offset (§4.4); the
style modules are not under `src/` and the numeric value is left open. -/
def Style.vertical_margin : Style → ℚ
  | .Plastic => 0
  | .Flat => 0
  | .FlatSquare => 0

/-- Modelled from the spec: shadow text is enabled for all three variants
(§4.4); the style modules are not under `src/`. -/
def Style.shadow : Style → Bool := fun _ => true

/-- Embeds `Renderer::make_text_element` (badge.rs lines 252–286). -/
def make_text_element (self : Renderer) (left_margin : ℚ) (content : String)
    (color : String) (text_width : ℚ) : List XNode :=
  let pair := (colors_for_background color).getD ("", "")
  let text_color := pair.1
  let shadow_color := pair.2
  let x := FONT_SCALE_UP_FACTOR * (left_margin + (0.5 : ℚ) * text_width + self.horizontal_padding)
  let shadow : List XNode :=
    if self.style.shadow then
      [.elem "text"
        [("aria-hidden", .str "true"), ("fill", .str shadow_color), ("x", .num x),
         ("y", .num (150 + self.style.vertical_margin)), ("fill-opacity", .str ".3"),
         ("transform", .str FONT_SCALE_DOWN_VALUE),
         ("textLength", .num (FONT_SCALE_UP_FACTOR * text_width))]
        [.text content]]
    else []
  shadow ++
    [.elem "text"
      [("fill", .str text_color), ("x", .num x),
       ("y", .num (140 + self.style.vertical_margin)),
       ("transform", .str FONT_SCALE_DOWN_VALUE),
       ("textLength", .num (FONT_SCALE_UP_FACTOR * text_width))]
      [.text content]]

/-- Embeds `Renderer::make_label_element` (badge.rs lines 288–290). -/
def make_label_element (self : Renderer) : List XNode :=
  make_text_element self self.label_margin self.label
    (color_to_string self.label_color) self.label_width

/-- Embeds `Renderer::make_message_element` (badge.rs lines 292–294). -/
def make_message_element (self : Renderer) : List XNode :=
  make_text_element self self.message_margin self.message
    (color_to_string self.color) self.message_width

/-- Embeds `Renderer::make_clip_path_element` (badge.rs lines 296–308). -/
def make_clip_path_element (self : Renderer) (radius : ℚ) : XNode :=
  .elem "clipPath" [("id", .str "r")]
    [.elem "rect"
      [("fill", .str "#fff"), ("width", .num self.width),
       ("height", .num self.style.height), ("rx", .num radius)] []]

/-- Embeds `Renderer::make_background_group_element` (badge.rs lines 310–345). -/
def make_background_group_element (self : Renderer) (with_gradient : Bool)
    (attributes : List (String × Val)) : XNode :=
  .elem "g" attributes
    ([.elem "rect"
       [("width", .num self.left_width), ("height", .num self.style.height),
        ("fill", .str (color_to_string self.label_color))] [],
      .elem "rect"
       [("x", .num self.left_width), ("width", .num self.right_width),
        ("height", .num self.style.height),
        ("fill", .str (color_to_string self.color))] []] ++
     (if with_gradient then
       [.elem "rect"
         [("fill", .str "url(#s)"), ("width", .num self.width),
          ("height", .num self.style.height)] []]
      else []))

/-- Embeds `Renderer::make_foreground_group_element` (badge.rs lines 347–359). -/
def make_foreground_group_element (self : Renderer) : XNode :=
  .elem "g"
    [("fill", .str "#fff"), ("text-anchor", .str "middle"),
     ("font-family", .str self.font_family),
     ("text-rendering", .str "geometricPrecision"), ("font-size", .str "110")]
    (make_label_element self ++ make_message_element self)

/-- Modelled from the spec: the nodes each style strategy contributes (§4.4;
`flat_style.rs`, `flat_square_style.rs` and `plastic_style.rs` are not under
`src/`): the flat background group, plus a rounded-corner clip for Flat and
Plastic and a gradient definition and overlay for Plastic, then the
foreground text group. -/
def styleRender (s : Style) (parent : Renderer) : List XNode :=
  match s with
  | .FlatSquare =>
    [make_background_group_element parent false [("shape-rendering", .str "crispEdges")],
     make_foreground_group_element parent]
  | .Flat =>
    [make_clip_path_element parent 3,
     make_background_group_element parent false [("clip-path", .str "url(#r)")],
     make_foreground_group_element parent]
  | .Plastic =>
    [.elem "linearGradient" [("id", .str "s"), ("x2", .str "0"), ("y2", .str "100%")]
      [.elem "stop" (GradientStop.into_attributes ⟨"0", "#bbb", ".1"⟩) [],
       .elem "stop" (GradientStop.into_attributes ⟨"1", "#000", ".1"⟩) []],
     make_clip_path_element parent 4,
     make_background_group_element parent true [("clip-path", .str "url(#r)")],
     make_foreground_group_element parent]

/-- Embeds the document-building part of `Renderer::internal_render`
(badge.rs lines 232–249): the `svg` root with its six attributes, the title
child, then the style-contributed nodes. -/
def internal_render_doc (self : Renderer) : List XNode :=
  let title : XNode := .elem "title" [] [.text self.accessible_text]
  let svg : XNode :=
    .elem "svg"
      [("xmlns", .str "http://www.w3.org/2000/svg"),
       ("xmlns:xlink", .str "http://www.w3.org/1999/xlink"),
       ("width", .num self.width), ("height", .num self.style.height),
       ("role", .str "img"), ("aria-label", .str self.accessible_text)]
      ([title] ++ styleRender self.style self)
  [svg]

/-- Embeds `Renderer::internal_render` (badge.rs lines 232–250): build the
document and serialize it. -/
def internal_render (self : Renderer) : String :=
  xmlRender (internal_render_doc self)

/-- Embeds `Renderer::new` (badge.rs lines 184–224).  The measurement panic on
empty filtered text propagates as `none`. -/
def Renderer.new (info : Metadata) : Option Renderer :=
  let horizontal_padding : ℚ := 5
  let label_margin : ℚ := 1
  let scale := WIDTH_FONT_SCALE
  match preferred_width_of info.label info.font scale,
        preferred_width_of info.message info.font scale with
  | some label_width, some message_width =>
    let left_width := label_width + 2 * horizontal_padding
    let message_margin := left_width - 1
    let right_width := message_width + 2 * horizontal_padding
    let width := left_width + right_width
    let label_color := (color_by_name info.label_color).getD
      ((color_by_name (some "#555")).getD ⟨0, 0, 0⟩)
    let color := (color_by_name info.color).getD
      ((color_by_name (some "#4c1")).getD ⟨0, 0, 0⟩)
    let accessible_text := info.label ++ ": " ++ info.message
    some
      { horizontal_padding, label_margin, message_margin,
        label_width, message_width, left_width, right_width,
        font_family := info.font_family.string, width, label_color, color,
        label := info.label, message := info.message, accessible_text,
        style := info.style }
  | _, _ => none

/-- Embeds `Renderer::render` (badge.rs lines 227–230). -/
def Renderer.render (info : Metadata) : Option String :=
  (Renderer.new info).map internal_render

/-- Embeds the `Visitors` row model (models.rs lines 6–9). -/
structure Visitors where
  id : String
  view_count : ℤ
deriving DecidableEq

/-- The view-counter table of the SQLite store, as the ordered list of its
rows.  The diesel connection and its error channel are external; the pure
table stands for them. -/
abbrev Db := List Visitors

/-- Embeds `get_user_viewcount` (actions.rs lines 8–19): the first row whose
`id` equals the key, or `none` when there is no such row. -/
def get_user_viewcount (conn : Db) (user : String) : Option Visitors :=
  (conn.filter (fun v => v.id == user)).head?

/-- Embeds `update_and_get_user_viewcount` (actions.rs lines 21–31): add one
to `view_count` of every row whose `id` equals the key; the returned number is
the count of rows the update affected, which is what
`diesel::update(..).execute` yields. -/
def update_and_get_user_viewcount (conn : Db) (user : String) : Db × ℕ :=
  (conn.map (fun v => if v.id == user then ⟨v.id, v.view_count + 1⟩ else v),
   (conn.filter (fun v => v.id == user)).length)

/-- The two response shapes `get_badge` produces. -/
inductive BadgeResponse where
  | ok (contentType : String) (cacheControl : String) (body : String)
  | notFound (body : String)

/-- The fixed metadata `get_badge` builds (main.rs lines 35–43). -/
def badge_metadata (font : Font) (count : String) : Metadata :=
  { style := .FlatSquare, label := "Profile views", message := count,
    font := font, font_family := .Default, label_color := none,
    color := some "orange" }

/-- Embeds the `get_badge` handler (main.rs lines 19–54): update the `"lxze"`
row (the update's error, if any, is printed and discarded), fetch the row, and
either render the badge or answer not-found.  A render panic — impossible for
these inputs — would surface as `none`; database errors are external to the
pure table model. -/
def get_badge (db : Db) (font : Font) : Db × Option BadgeResponse :=
  let db2 := (update_and_get_user_viewcount db "lxze").1
  match get_user_viewcount db2 "lxze" with
  | some visitor =>
    (db2,
     (Renderer.render (badge_metadata font (toString visitor.view_count))).map
       (fun out => .ok "image/svg+xml;charset=utf-8" "max-age=120, s-maxage=120" out))
  | none => (db2, some (.notFound "query error"))

/-! ### Measurement infrastructure -/

lemma measure_line_none (f : Font) (sc : ℚ) (text : String)
    (h : text.data.filter (fun c => !charIsControl c) = []) :
    measure_line f text sc = none := by
  unfold measure_line
  rw [h]
  rfl

/-- The loop-state invariant of `measure_line`: the first glyph sits at the
origin, nothing moved before any glyph was placed, and the caret rests one
advance past the last glyph. -/
def GoodState (f : Font) (sc : ℚ) (st : MeasureState) : Prop :=
  (∀ g, st.firstG = some g → g.x = 0) ∧
  (st.firstG = none → st.caretX = 0 ∧ st.lastG = none) ∧
  (∀ g, st.lastG = some g → st.caretX = g.x + f.advance sc g.id)

lemma goodState_init (f : Font) (sc : ℚ) : GoodState f sc ⟨0, none, none⟩ := by
  refine ⟨?_, ?_, ?_⟩ <;> simp

lemma goodState_step (f : Font) (sc : ℚ) (st : MeasureState) (c : Char)
    (h : GoodState f sc st) : GoodState f sc (measureStep f sc st c) := by
  obtain ⟨h1, h2, h3⟩ := h
  rcases hL : st.lastG with _ | prev
  · rcases hF : st.firstG with _ | g0
    · obtain ⟨hc0, -⟩ := h2 hF
      refine ⟨?_, ?_, ?_⟩ <;> simp [measureStep, hL, hF, hc0]
    · refine ⟨?_, ?_, ?_⟩ <;> simp [measureStep, hL, hF]
      exact h1 g0 hF
  · rcases hF : st.firstG with _ | g0
    · exact absurd hL (by simp [(h2 hF).2])
    · refine ⟨?_, ?_, ?_⟩ <;> simp [measureStep, hL, hF]
      exact h1 g0 hF

lemma goodState_foldl (f : Font) (sc : ℚ) (l : List Char) (st : MeasureState)
    (h : GoodState f sc st) : GoodState f sc (l.foldl (measureStep f sc) st) := by
  induction l generalizing st with
  | nil => simpa using h
  | cons c cs ih =>
    rw [List.foldl_cons]
    exact ih _ (goodState_step f sc st c h)

lemma foldl_firstG_stable (f : Font) (sc : ℚ) (l : List Char) (st : MeasureState)
    (g : Glyph) (h : st.firstG = some g) :
    (l.foldl (measureStep f sc) st).firstG = some g := by
  induction l generalizing st with
  | nil => simpa using h
  | cons c cs ih =>
    rw [List.foldl_cons]
    exact ih _ (by simp [measureStep, h])

lemma foldl_some_of_ne_nil (f : Font) (sc : ℚ) (l : List Char)
    (st : MeasureState) (h : l ≠ []) :
    (l.foldl (measureStep f sc) st).firstG.isSome ∧
      (l.foldl (measureStep f sc) st).lastG.isSome := by
  induction l generalizing st with
  | nil => exact absurd rfl h
  | cons c cs ih =>
    rw [List.foldl_cons]
    rcases cs with _ | ⟨d, ds⟩
    · rcases hF : st.firstG with _ | g0 <;> simp [measureStep, hF]
    · exact ih _ (by simp)

lemma caretX_le_step (f : Font) (sc : ℚ)
    (hadv : ∀ c, 0 ≤ f.advance sc c) (hkern : ∀ a b, 0 ≤ f.kern sc a b)
    (st : MeasureState) (c : Char) :
    st.caretX ≤ (measureStep f sc st c).caretX := by
  rcases hL : st.lastG with _ | prev <;> simp [measureStep, hL]
  · exact hadv c
  · have := hkern prev.id c
    have := hadv c
    linarith

lemma caretX_le_foldl (f : Font) (sc : ℚ)
    (hadv : ∀ c, 0 ≤ f.advance sc c) (hkern : ∀ a b, 0 ≤ f.kern sc a b)
    (l : List Char) (st : MeasureState) :
    st.caretX ≤ (l.foldl (measureStep f sc) st).caretX := by
  induction l generalizing st with
  | nil => simp
  | cons c cs ih =>
    rw [List.foldl_cons]
    exact le_trans (caretX_le_step f sc hadv hkern st c) (ih _)

/-- With at least one measurable glyph, the returned width is the ceiling of
the final caret position. -/
lemma measure_line_eq (f : Font) (sc : ℚ) (text : String)
    (h : text.data.filter (fun c => !charIsControl c) ≠ []) :
    measure_line f text sc =
      some
        (((⌈((text.data.filter (fun c => !charIsControl c)).foldl
            (measureStep f sc) ⟨0, none, none⟩).caretX⌉ : ℤ) : ℚ),
         f.ascent sc - f.descent sc + f.lineGap sc) := by
  unfold measure_line
  dsimp only []
  have hg := goodState_foldl f sc (text.data.filter (fun c => !charIsControl c))
    ⟨0, none, none⟩ (goodState_init f sc)
  have hs := foldl_some_of_ne_nil f sc (text.data.filter (fun c => !charIsControl c))
    ⟨0, none, none⟩ h
  set st := (text.data.filter (fun c => !charIsControl c)).foldl
    (measureStep f sc) ⟨0, none, none⟩ with hst
  obtain ⟨hf, hl⟩ := hs
  rcases hF : st.firstG with _ | fg
  · rw [hF] at hf; exact absurd hf (by simp)
  rcases hL : st.lastG with _ | lg
  · rw [hL] at hl; exact absurd hl (by simp)
  simp only [hF, hL]
  have hfg0 : fg.x = 0 := hg.1 fg hF
  have hcaret : st.caretX = lg.x + f.advance sc lg.id := hg.2.2 lg hL
  rw [hfg0, hcaret]
  norm_num

lemma measure_line_ne_nil_of_some (f : Font) (sc : ℚ) (text : String)
    (w h : ℚ) (hm : measure_line f text sc = some (w, h)) :
    text.data.filter (fun c => !charIsControl c) ≠ [] := by
  intro h0
  rw [measure_line_none f sc text h0] at hm
  exact Option.noConfusion hm

/-! ### C1 -/

/-- C1: the claim says an empty or all-control string measures to zero width
with no failure and rendering still produces a document; the code instead
takes the failure branch — `measure_line` unwraps `first_glyph`, which is
`None` for such input, so measurement and hence rendering fail (panic,
modelled as `none`). -/
theorem empty_label_measurement_fails (f : Font) (sc : ℚ) (info : Metadata)
    (hlab : info.label = "") :
    measure_line f "" sc = none ∧ Renderer.render info = none := by
  constructor
  · exact measure_line_none f sc "" rfl
  · unfold Renderer.render Renderer.new
    dsimp only []
    have hpw : preferred_width_of info.label info.font WIDTH_FONT_SCALE = none := by
      unfold preferred_width_of
      rw [hlab, measure_line_none info.font WIDTH_FONT_SCALE "" rfl]
      rfl
    rw [hpw]
    rfl

/-- A deterministic example font: every glyph is four units wide, with no
kerning. -/
def exFont : Font :=
  { advance := fun _ _ => 4, kern := fun _ _ _ => 0,
    ascent := fun _ => 10, descent := fun _ => -2, lineGap := fun _ => 0 }

/-- An example input record with an empty label. -/
def exMetaEmpty : Metadata :=
  { style := .Flat, label := "", message := "a", font := exFont,
    font_family := .Default, label_color := none, color := some "orange" }

theorem empty_label_measurement_fails_witness :
    measure_line exFont "" 11 = none ∧ Renderer.render exMetaEmpty = none :=
  empty_label_measurement_fails exFont 11 exMetaEmpty rfl

/-! ### C5 -/

/-- Modelled from the spec: "round it up to the next odd integer — if already
odd keep it; if even, add one" (§4.2), as a function on the measured integer
width, for comparison with the code's `round_up_to_odd`. -/
def spec_round_to_odd (m : ℤ) : ℤ := if m % 2 = 0 then m + 1 else m

/-- C5: for every font, text and scale, the preferred width equals the
measured width — always an integer — rounded up to the next odd integer
(unchanged if already odd, plus one if even) multiplied by the fudge factor
1.0345. -/
theorem preferred_width_odd_fudge (f : Font) (sc : ℚ) (text : String) (w h : ℚ)
    (hm : measure_line f text sc = some (w, h)) :
    ∃ m : ℤ, w = (m : ℚ) ∧
      preferred_width_of text f sc =
        some (((spec_round_to_odd m : ℤ) : ℚ) * (1.0345 : ℚ)) := by
  have hne := measure_line_ne_nil_of_some f sc text w h hm
  rw [measure_line_eq f sc text hne] at hm
  have hm' := Option.some.inj hm
  have hw : w = ((⌈((text.data.filter (fun c => !charIsControl c)).foldl
      (measureStep f sc) ⟨0, none, none⟩).caretX⌉ : ℤ) : ℚ) :=
    (congrArg Prod.fst hm').symm
  refine ⟨⌈((text.data.filter (fun c => !charIsControl c)).foldl
      (measureStep f sc) ⟨0, none, none⟩).caretX⌉, hw, ?_⟩
  unfold preferred_width_of
  rw [measure_line_eq f sc text hne]
  simp only [Option.map_some']
  congr 1
  rw [rto_intCast]
  unfold spec_round_to_odd
  rfl

theorem preferred_width_odd_fudge_witness :
    ∃ m : ℤ, (8 : ℚ) = (m : ℚ) ∧
      preferred_width_of "ab" exFont 11 =
        some (((spec_round_to_odd m : ℤ) : ℚ) * (1.0345 : ℚ)) := by
  apply preferred_width_odd_fudge exFont 11 "ab" 8 12
  have hfilter : "ab".data.filter (fun c => !charIsControl c) = ['a', 'b'] := by decide
  rw [measure_line_eq exFont 11 "ab" (by decide)]
  rw [hfilter]
  norm_num [exFont, List.foldl, measureStep]

/-! ### C2 -/

/-- C2: for every input whose construction succeeds, the renderer computes
left-segment width = label preferred width + 2·5, right-segment width =
message preferred width + 2·5, message margin = left-segment width − 1, and
the root svg element of the output document declares a width attribute equal
to left-segment width + right-segment width. -/
theorem renderer_geometry (info : Metadata) (r : Renderer)
    (h : Renderer.new info = some r) :
    preferred_width_of info.label info.font WIDTH_FONT_SCALE = some r.label_width ∧
    preferred_width_of info.message info.font WIDTH_FONT_SCALE = some r.message_width ∧
    r.left_width = r.label_width + 2 * 5 ∧
    r.right_width = r.message_width + 2 * 5 ∧
    r.message_margin = r.left_width - 1 ∧
    ∃ attrs children, internal_render_doc r = [XNode.elem "svg" attrs children] ∧
      ("width", Val.num (r.left_width + r.right_width)) ∈ attrs := by
  unfold Renderer.new at h
  dsimp only [] at h
  rcases hl : preferred_width_of info.label info.font WIDTH_FONT_SCALE with _ | lw
  · rw [hl] at h
    exact Option.noConfusion h
  rcases hmsg : preferred_width_of info.message info.font WIDTH_FONT_SCALE with _ | mw
  · rw [hl, hmsg] at h
    exact Option.noConfusion h
  rw [hl, hmsg] at h
  obtain rfl := Option.some.inj h
  exact ⟨rfl, rfl, rfl, rfl, rfl, _, _, rfl,
    List.Mem.tail _ (List.Mem.tail _ (List.Mem.head _))⟩

/-- An example input record measured with `exFont`. -/
def exMeta : Metadata :=
  { style := .Flat, label := "ab", message := "a", font := exFont,
    font_family := .Default, label_color := none, color := some "orange" }

/-- Fallback renderer state for `Option.getD`. -/
def exRFallback : Renderer :=
  { horizontal_padding := 0, label_margin := 0, message_margin := 0,
    label_width := 0, message_width := 0, left_width := 0, right_width := 0,
    font_family := "", width := 0, label_color := ⟨0, 0, 0⟩, color := ⟨0, 0, 0⟩,
    label := "", message := "", accessible_text := "", style := .Flat }

/-- The renderer state built from `exMeta`. -/
def exR : Renderer := (Renderer.new exMeta).getD exRFallback

theorem renderer_geometry_witness :
    exR.left_width = exR.label_width + 2 * 5 ∧
      exR.message_margin = exR.left_width - 1 :=
  ⟨(renderer_geometry exMeta exR rfl).2.2.1,
   (renderer_geometry exMeta exR rfl).2.2.2.2.1⟩

/-! ### C9 -/

/-- C9: rendering is deterministic — two runs of `Renderer::render` on equal
metadata (same style, label, message, font metrics, font family and color
tokens) produce identical output strings. -/
theorem render_deterministic (m1 m2 : Metadata)
    (hstyle : m1.style = m2.style) (hlabel : m1.label = m2.label)
    (hmessage : m1.message = m2.message) (hfont : m1.font = m2.font)
    (hfamily : m1.font_family = m2.font_family)
    (hlabelcolor : m1.label_color = m2.label_color)
    (hcolor : m1.color = m2.color) :
    Renderer.render m1 = Renderer.render m2 := by
  obtain ⟨s1, l1, g1, f1, ff1, lc1, c1⟩ := m1
  obtain ⟨s2, l2, g2, f2, ff2, lc2, c2⟩ := m2
  have e1 : s1 = s2 := hstyle
  have e2 : l1 = l2 := hlabel
  have e3 : g1 = g2 := hmessage
  have e4 : f1 = f2 := hfont
  have e5 : ff1 = ff2 := hfamily
  have e6 : lc1 = lc2 := hlabelcolor
  have e7 : c1 = c2 := hcolor
  subst e1 e2 e3 e4 e5 e6 e7
  rfl

theorem render_deterministic_witness :
    Renderer.render exMeta = Renderer.render exMeta :=
  render_deterministic exMeta exMeta rfl rfl rfl rfl rfl rfl rfl

/-! ### C4 -/

/-- C4: for every color token, when it resolves to a color of brightness at
most 0.69 the contrast pair is light near-white text `#fff` with near-black
shadow `#010101`; when it resolves with brightness above 0.69 the pair is
dark gray text `#333` with light gray shadow `#ccc`; when it does not resolve
there is no pair. -/
theorem colors_for_background_contrast (s : String) :
    (∀ c, color_by_name (some s) = some c →
      colors_for_background s =
        some (if brightness c ≤ (0.69 : ℚ) then ("#fff", "#010101")
              else ("#333", "#ccc"))) ∧
    (color_by_name (some s) = none → colors_for_background s = none) := by
  constructor
  · intro c hc
    unfold colors_for_background
    rw [hc]
    show (if brightness c ≤ (0.69 : ℚ) then some ("#fff", "#010101")
          else some ("#333", "#ccc")) = _
    by_cases hb : brightness c ≤ (0.69 : ℚ)
    · rw [if_pos hb, if_pos hb]
    · rw [if_neg hb, if_neg hb]
  · intro hn
    unfold colors_for_background
    rw [hn]

theorem colors_for_background_contrast_witness :
    colors_for_background "orange" = some ("#fff", "#010101") := by
  have h1 : color_by_name (some "orange") = some ⟨255, 165, 0⟩ := by decide
  have h2 := (colors_for_background_contrast "orange").1 ⟨255, 165, 0⟩ h1
  rw [h2]
  have hb : brightness ⟨255, 165, 0⟩ ≤ (0.69 : ℚ) := by
    norm_num [brightness]
  rw [if_pos hb]

/-! ### C7 -/

lemma make_text_element_attrs (r : Renderer) (margin : ℚ) (content color : String)
    (tw : ℚ) :
    ∀ e ∈ make_text_element r margin content color tw,
      ("x", Val.num (FONT_SCALE_UP_FACTOR * (margin + (0.5 : ℚ) * tw + r.horizontal_padding)))
        ∈ e.attrsOf ∧
      ("textLength", Val.num (FONT_SCALE_UP_FACTOR * tw)) ∈ e.attrsOf ∧
      ("transform", Val.str FONT_SCALE_DOWN_VALUE) ∈ e.attrsOf := by
  intro e he
  unfold make_text_element at he
  rw [show r.style.shadow = true from rfl] at he
  simp only [if_true, List.mem_append, List.mem_singleton, List.mem_cons,
    List.not_mem_nil, or_false] at he
  rcases he with rfl | rfl <;>
    exact ⟨by simp [XNode.attrsOf], by simp [XNode.attrsOf], by simp [XNode.attrsOf]⟩

/-- C7: for every successfully-constructed renderer, each emitted label and
message text element is positioned at x = 10 · (its segment margin + half its
preferred width + the horizontal padding 5), has pinned rendered length
textLength = 10 · its preferred width, and carries a transform scaling it
down by 0.1 (`scale(.1)`). -/
theorem text_element_geometry (info : Metadata) (r : Renderer)
    (h : Renderer.new info = some r) :
    preferred_width_of info.label info.font WIDTH_FONT_SCALE = some r.label_width ∧
    preferred_width_of info.message info.font WIDTH_FONT_SCALE = some r.message_width ∧
    (∀ e ∈ make_label_element r,
      ("x", Val.num (10 * (r.label_margin + (0.5 : ℚ) * r.label_width + 5))) ∈ e.attrsOf ∧
      ("textLength", Val.num (10 * r.label_width)) ∈ e.attrsOf ∧
      ("transform", Val.str "scale(.1)") ∈ e.attrsOf) ∧
    (∀ e ∈ make_message_element r,
      ("x", Val.num (10 * (r.message_margin + (0.5 : ℚ) * r.message_width + 5))) ∈ e.attrsOf ∧
      ("textLength", Val.num (10 * r.message_width)) ∈ e.attrsOf ∧
      ("transform", Val.str "scale(.1)") ∈ e.attrsOf) := by
  unfold Renderer.new at h
  dsimp only [] at h
  rcases hl : preferred_width_of info.label info.font WIDTH_FONT_SCALE with _ | lw
  · rw [hl] at h
    exact Option.noConfusion h
  rcases hmsg : preferred_width_of info.message info.font WIDTH_FONT_SCALE with _ | mw
  · rw [hl, hmsg] at h
    exact Option.noConfusion h
  rw [hl, hmsg] at h
  obtain rfl := Option.some.inj h
  exact ⟨rfl, rfl,
    fun e he => make_text_element_attrs _ _ _ _ _ e he,
    fun e he => make_text_element_attrs _ _ _ _ _ e he⟩

theorem text_element_geometry_witness :
    ∃ e, e ∈ make_label_element exR ∧
      ("x", Val.num (10 * (exR.label_margin + (0.5 : ℚ) * exR.label_width + 5))) ∈ e.attrsOf ∧
      ("textLength", Val.num (10 * exR.label_width)) ∈ e.attrsOf ∧
      ("transform", Val.str "scale(.1)") ∈ e.attrsOf :=
  ⟨_, List.Mem.head _,
   (text_element_geometry exMeta exR rfl).2.2.1 _ (List.Mem.head _)⟩

/-! ### C6 -/

/-- A font with nonnegative advances but a negative kerning adjustment, as
real fonts may have for tightly kerned pairs. -/
def cexFont : Font :=
  { advance := fun _ _ => 1, kern := fun _ _ _ => -10,
    ascent := fun _ => 10, descent := fun _ => -2, lineGap := fun _ => 0 }

/-- Evaluation helper: the preferred width, given the filtered character list
and the ceiling of the final caret position. -/
lemma preferred_width_eval (f : Font) (sc : ℚ) (text : String) (l : List Char)
    (M : ℤ) (hfil : text.data.filter (fun c => !charIsControl c) = l) (hl : l ≠ [])
    (hM : ⌈(l.foldl (measureStep f sc) ⟨0, none, none⟩).caretX⌉ = M) :
    preferred_width_of text f sc =
      some (((if M % 2 = 0 then M + 1 else M : ℤ) : ℚ) * (1.0345 : ℚ)) := by
  have hne : text.data.filter (fun c => !charIsControl c) ≠ [] := by
    rw [hfil]; exact hl
  unfold preferred_width_of
  rw [measure_line_eq f sc text hne]
  simp only [Option.map_some']
  congr 1
  rw [hfil, hM, rto_intCast]

/-- C6 fails as stated: with `cexFont`, `"a"` is a prefix of `"ab"` yet the
preferred width of `"ab"` is smaller than that of `"a"`, because the kerning
adjustment may be negative. -/
theorem preferred_width_not_monotone :
    "a".data <+: "ab".data ∧
    preferred_width_of "a" cexFont 11 = some (1.0345 : ℚ) ∧
    preferred_width_of "ab" cexFont 11 = some (-7.2415 : ℚ) ∧
    ¬ ((1.0345 : ℚ) ≤ (-7.2415 : ℚ)) := by
  refine ⟨by decide, ?_, ?_, by norm_num⟩
  · rw [preferred_width_eval cexFont 11 "a" ['a'] 1 (by decide) (by decide)
      (by norm_num [List.foldl, measureStep, cexFont])]
    norm_num
  · have hcar : ((['a', 'b'].foldl (measureStep cexFont 11)
        ⟨0, none, none⟩).caretX) = ((-8 : ℤ) : ℚ) := by
      norm_num [List.foldl, measureStep, cexFont]
    rw [preferred_width_eval cexFont 11 "ab" ['a', 'b'] (-8) (by decide) (by decide)
      (by rw [hcar, Int.ceil_intCast])]
    norm_num

lemma rto_z_mono (a b : ℤ) (h : a ≤ b) :
    (if a % 2 = 0 then a + 1 else a) ≤ (if b % 2 = 0 then b + 1 else b) := by
  split_ifs <;> omega

/-- C6 (amended): for fonts whose glyph advances and kerning adjustments at
the given scale are all nonnegative, the preferred width is monotonically
non-decreasing under prefix extension of the text, and, whenever measurement
succeeds, the value before the fudge multiplication is a positive odd
integer. -/
theorem preferred_width_mono_of_nonneg (f : Font) (sc : ℚ)
    (hadv : ∀ c, 0 ≤ f.advance sc c) (hkern : ∀ a b, 0 ≤ f.kern sc a b) :
    (∀ s t : String, s.data <+: t.data → ∀ w1 w2 : ℚ,
      preferred_width_of s f sc = some w1 →
      preferred_width_of t f sc = some w2 → w1 ≤ w2) ∧
    (∀ (text : String) (w h : ℚ), measure_line f text sc = some (w, h) →
      ∃ m : ℤ, round_up_to_odd w = (m : ℚ) ∧ 0 < m ∧ m % 2 = 1) := by
  constructor
  · intro s t hpre w1 w2 hw1 hw2
    obtain ⟨r0, hr⟩ := hpre
    have hs_ne : s.data.filter (fun c => !charIsControl c) ≠ [] := by
      intro h0
      unfold preferred_width_of at hw1
      rw [measure_line_none f sc s h0] at hw1
      exact Option.noConfusion hw1
    have ht_ne : t.data.filter (fun c => !charIsControl c) ≠ [] := by
      intro h0
      unfold preferred_width_of at hw2
      rw [measure_line_none f sc t h0] at hw2
      exact Option.noConfusion hw2
    unfold preferred_width_of at hw1 hw2
    rw [measure_line_eq f sc s hs_ne] at hw1
    rw [measure_line_eq f sc t ht_ne] at hw2
    simp only [Option.map_some'] at hw1 hw2
    obtain rfl := Option.some.inj hw1
    obtain rfl := Option.some.inj hw2
    have hsplit : t.data.filter (fun c => !charIsControl c) =
        s.data.filter (fun c => !charIsControl c) ++
          r0.filter (fun c => !charIsControl c) := by
      rw [← hr, List.filter_append]
    have hcaret :
        ((s.data.filter (fun c => !charIsControl c)).foldl
          (measureStep f sc) ⟨0, none, none⟩).caretX ≤
        ((t.data.filter (fun c => !charIsControl c)).foldl
          (measureStep f sc) ⟨0, none, none⟩).caretX := by
      rw [hsplit, List.foldl_append]
      exact caretX_le_foldl f sc hadv hkern _ _
    rw [rto_intCast, rto_intCast]
    apply mul_le_mul_of_nonneg_right _ (by norm_num : (0 : ℚ) ≤ (1.0345 : ℚ))
    exact_mod_cast rto_z_mono _ _ (Int.ceil_le_ceil hcaret)
  · intro text w h hm
    have hne := measure_line_ne_nil_of_some f sc text w h hm
    rw [measure_line_eq f sc text hne] at hm
    have hw : w = ((⌈((text.data.filter (fun c => !charIsControl c)).foldl
        (measureStep f sc) ⟨0, none, none⟩).caretX⌉ : ℤ) : ℚ) :=
      (congrArg Prod.fst (Option.some.inj hm)).symm
    have hc0 : (0 : ℚ) ≤ ((text.data.filter (fun c => !charIsControl c)).foldl
        (measureStep f sc) ⟨0, none, none⟩).caretX := by
      have := caretX_le_foldl f sc hadv hkern
        (text.data.filter (fun c => !charIsControl c)) ⟨0, none, none⟩
      simpa using this
    have hM0 : 0 ≤ ⌈((text.data.filter (fun c => !charIsControl c)).foldl
        (measureStep f sc) ⟨0, none, none⟩).caretX⌉ := by
      have h1 := le_trans hc0 (Int.le_ceil _)
      exact_mod_cast h1
    refine ⟨_, by rw [hw, rto_intCast], ?_, ?_⟩
    · split_ifs with hpar <;> omega
    · split_ifs with hpar <;> omega

theorem preferred_width_mono_of_nonneg_witness :
    (5.1725 : ℚ) ≤ (9.3105 : ℚ) ∧
      ∃ m : ℤ, round_up_to_odd (4 : ℚ) = (m : ℚ) ∧ 0 < m ∧ m % 2 = 1 := by
  have hthm := preferred_width_mono_of_nonneg exFont 11
    (fun c => by norm_num [exFont]) (fun a b => by norm_num [exFont])
  constructor
  · apply hthm.1 "a" "ab" (by decide)
    · rw [preferred_width_eval exFont 11 "a" ['a'] 4 (by decide) (by decide)
        (by norm_num [List.foldl, measureStep, exFont])]
      norm_num
    · rw [preferred_width_eval exFont 11 "ab" ['a', 'b'] 8 (by decide) (by decide)
        (by norm_num [List.foldl, measureStep, exFont])]
      norm_num
  · apply hthm.2 "a" 4 12
    rw [measure_line_eq exFont 11 "a" (by decide),
      show "a".data.filter (fun c => !charIsControl c) = ['a'] from by decide]
    norm_num [List.foldl, measureStep, exFont]

/-! ### C8 -/

/-- An example counter table holding the single row the deployment uses. -/
def exDb : Db := [⟨"lxze", 41⟩]

/-- C8 fails as stated: the increment operation returns the number of rows it
updated (here 1), which is neither the stored counter value 41 nor the
incremented value 42 associated with the key. -/
theorem update_returns_row_count_not_value :
    (update_and_get_user_viewcount exDb "lxze").2 = 1 ∧
    get_user_viewcount exDb "lxze" = some ⟨"lxze", 41⟩ ∧
    get_user_viewcount (update_and_get_user_viewcount exDb "lxze").1 "lxze" =
      some ⟨"lxze", 42⟩ ∧
    (1 : ℤ) ≠ 41 ∧ (1 : ℤ) ≠ 42 := by
  refine ⟨rfl, rfl, rfl, by norm_num, by norm_num⟩

lemma filter_update_comm (l : Db) (user : String) :
    (l.map (fun v => if v.id == user then ⟨v.id, v.view_count + 1⟩ else v)).filter
        (fun v => v.id == user) =
      (l.filter (fun v => v.id == user)).map
        (fun v => (⟨v.id, v.view_count + 1⟩ : Visitors)) := by
  rw [List.filter_map]
  have hp : ((fun v => v.id == user) ∘
      (fun v => if v.id == user then (⟨v.id, v.view_count + 1⟩ : Visitors) else v)) =
      (fun v => v.id == user) := by
    funext v
    by_cases hv : (v.id == user) = true
    · simp only [Function.comp_apply, if_pos hv]
    · simp only [Function.comp_apply, if_neg hv]
  rw [hp]
  apply List.map_congr_left
  intro a ha
  rw [if_pos (List.mem_filter.mp ha).2]

/-- C8 (amended): the fetch operation returns the counter row — hence the
integer counter value — associated with the key, or reports not-found as
`none`; the increment operation returns the count of rows it affected, zero
exactly when the key is absent, and a fetch after the increment sees the
counter value one larger than before. -/
theorem viewcount_store_spec (db : Db) (user : String) :
    ((update_and_get_user_viewcount db user).2 = 0 ↔
      get_user_viewcount db user = none) ∧
    (∀ v, get_user_viewcount db user = some v → v.id = user ∧ v ∈ db) ∧
    (∀ v, get_user_viewcount (update_and_get_user_viewcount db user).1 user = some v →
      ∃ w, get_user_viewcount db user = some w ∧
        v.view_count = w.view_count + 1) := by
  refine ⟨⟨?_, ?_⟩, ?_, ?_⟩
  · intro h0
    have he : db.filter (fun v => v.id == user) = [] := List.length_eq_zero.mp h0
    unfold get_user_viewcount
    rw [he]
    rfl
  · intro hn
    unfold get_user_viewcount at hn
    have he : db.filter (fun v => v.id == user) = [] := List.head?_eq_none_iff.mp hn
    show (db.filter (fun v => v.id == user)).length = 0
    rw [he]
    rfl
  · intro v hv
    unfold get_user_viewcount at hv
    have hmem := List.mem_of_mem_head? hv
    obtain ⟨hin, hpred⟩ := List.mem_filter.mp hmem
    exact ⟨by simpa using hpred, hin⟩
  · intro v hv
    unfold get_user_viewcount update_and_get_user_viewcount at hv
    dsimp only [] at hv
    rw [filter_update_comm db user, List.head?_map] at hv
    cases hw : (db.filter (fun v => v.id == user)).head? with
    | none =>
      rw [hw] at hv
      exact Option.noConfusion hv
    | some w =>
      rw [hw] at hv
      simp only [Option.map_some'] at hv
      obtain rfl := Option.some.inj hv
      refine ⟨w, ?_, rfl⟩
      unfold get_user_viewcount
      exact hw

theorem viewcount_store_spec_witness :
    ∃ w, get_user_viewcount exDb "lxze" = some w ∧
      (Visitors.mk "lxze" 42).view_count = w.view_count + 1 :=
  (viewcount_store_spec exDb "lxze").2.2 ⟨"lxze", 42⟩ (by decide)

/-! ### C10 -/

lemma digitChar_not_control (d : ℕ) : charIsControl (Nat.digitChar d) = false := by
  rcases Nat.lt_or_ge d 16 with h | h
  · interval_cases d <;> decide
  · unfold Nat.digitChar
    rw [if_neg (by omega : ¬ d = 0), if_neg (by omega : ¬ d = 1),
      if_neg (by omega : ¬ d = 2), if_neg (by omega : ¬ d = 3),
      if_neg (by omega : ¬ d = 4), if_neg (by omega : ¬ d = 5),
      if_neg (by omega : ¬ d = 6), if_neg (by omega : ¬ d = 7),
      if_neg (by omega : ¬ d = 8), if_neg (by omega : ¬ d = 9),
      if_neg (by omega : ¬ d = 10), if_neg (by omega : ¬ d = 11),
      if_neg (by omega : ¬ d = 12), if_neg (by omega : ¬ d = 13),
      if_neg (by omega : ¬ d = 14), if_neg (by omega : ¬ d = 15)]
    decide

lemma toDigitsCore_not_control (b : ℕ) :
    ∀ (fuel n : ℕ) (acc : List Char),
      (∀ c ∈ acc, charIsControl c = false) →
      ∀ c ∈ Nat.toDigitsCore b fuel n acc, charIsControl c = false := by
  intro fuel
  induction fuel with
  | zero =>
    intro n acc hacc c hc
    simp only [Nat.toDigitsCore] at hc
    exact hacc c hc
  | succ fu ih =>
    intro n acc hacc c hc
    simp only [Nat.toDigitsCore] at hc
    have hcons : ∀ c' ∈ Nat.digitChar (n % b) :: acc, charIsControl c' = false := by
      intro c' hc'
      rcases List.mem_cons.mp hc' with h | h
      · rw [h]
        exact digitChar_not_control _
      · exact hacc c' h
    by_cases h0 : n / b = 0
    · rw [if_pos h0] at hc
      exact hcons c hc
    · rw [if_neg h0] at hc
      exact ih (n / b) _ hcons c hc

lemma toDigitsCore_ne_nil (b : ℕ) :
    ∀ (fuel n : ℕ) (acc : List Char), acc ≠ [] →
      Nat.toDigitsCore b fuel n acc ≠ [] := by
  intro fuel
  induction fuel with
  | zero =>
    intro n acc hacc
    simpa only [Nat.toDigitsCore] using hacc
  | succ fu ih =>
    intro n acc hacc
    simp only [Nat.toDigitsCore]
    by_cases h0 : n / b = 0
    · rw [if_pos h0]
      simp
    · rw [if_neg h0]
      exact ih (n / b) _ (by simp)

lemma toDigits_ne_nil (b n : ℕ) : Nat.toDigits b n ≠ [] := by
  unfold Nat.toDigits
  simp only [Nat.toDigitsCore]
  by_cases h0 : n / b = 0
  · rw [if_pos h0]
    simp
  · rw [if_neg h0]
    exact toDigitsCore_ne_nil b _ _ _ (by simp)

lemma toDigits_not_control (b n : ℕ) :
    ∀ c ∈ Nat.toDigits b n, charIsControl c = false := by
  unfold Nat.toDigits
  exact toDigitsCore_not_control b _ _ [] (by simp)

lemma nat_repr_spec (n : ℕ) :
    (Nat.repr n).data ≠ [] ∧ ∀ c ∈ (Nat.repr n).data, charIsControl c = false := by
  have hdata : (Nat.repr n).data = Nat.toDigits 10 n := rfl
  rw [hdata]
  exact ⟨toDigits_ne_nil 10 n, toDigits_not_control 10 n⟩

lemma int_toString_spec (i : ℤ) :
    (toString i).data ≠ [] ∧ ∀ c ∈ (toString i).data, charIsControl c = false := by
  cases i with
  | ofNat m =>
    have h : (toString (Int.ofNat m)).data = (Nat.repr m).data := rfl
    rw [h]
    exact nat_repr_spec m
  | negSucc m =>
    have h : (toString (Int.negSucc m)).data = '-' :: (Nat.repr (m + 1)).data := rfl
    rw [h]
    refine ⟨by simp, ?_⟩
    intro c hc
    rcases List.mem_cons.mp hc with rfl | hmem
    · decide
    · exact (nat_repr_spec (m + 1)).2 c hmem

lemma int_toString_filter (i : ℤ) :
    (toString i).data.filter (fun c => !charIsControl c) ≠ [] := by
  obtain ⟨hne, hctl⟩ := int_toString_spec i
  rw [List.filter_eq_self.mpr ?_]
  · exact hne
  · intro c hc
    simp [hctl c hc]

/-- Rendering succeeds whenever label and message each keep at least one
character after the control filter. -/
lemma render_some (info : Metadata)
    (hl : info.label.data.filter (fun c => !charIsControl c) ≠ [])
    (hm : info.message.data.filter (fun c => !charIsControl c) ≠ []) :
    ∃ s, Renderer.render info = some s := by
  unfold Renderer.render Renderer.new
  dsimp only []
  have hw1 : ∃ w, preferred_width_of info.label info.font WIDTH_FONT_SCALE = some w := by
    unfold preferred_width_of
    rw [measure_line_eq info.font WIDTH_FONT_SCALE info.label hl]
    exact ⟨_, rfl⟩
  have hw2 : ∃ w, preferred_width_of info.message info.font WIDTH_FONT_SCALE = some w := by
    unfold preferred_width_of
    rw [measure_line_eq info.font WIDTH_FONT_SCALE info.message hm]
    exact ⟨_, rfl⟩
  obtain ⟨w1, hw1⟩ := hw1
  obtain ⟨w2, hw2⟩ := hw2
  rw [hw1, hw2]
  exact ⟨_, rfl⟩

/-- C10: every request increments the `"lxze"` counter row; when the row
exists the response is the badge rendered with FlatSquare style, label
`"Profile views"`, message the stringified stored view count, default label
color and message color `"orange"` — and that render succeeds; when the row
does not exist the response is not-found. -/
theorem get_badge_spec (db : Db) (font : Font) :
    (get_badge db font).1 =
      db.map (fun v => if v.id == "lxze" then ⟨v.id, v.view_count + 1⟩ else v) ∧
    (∀ v, get_user_viewcount (get_badge db font).1 "lxze" = some v →
      (get_badge db font).2 =
        (Renderer.render (badge_metadata font (toString v.view_count))).map
          (fun out => BadgeResponse.ok "image/svg+xml;charset=utf-8"
            "max-age=120, s-maxage=120" out) ∧
      ∃ s, Renderer.render (badge_metadata font (toString v.view_count)) = some s) ∧
    (get_user_viewcount (get_badge db font).1 "lxze" = none →
      (get_badge db font).2 = some (BadgeResponse.notFound "query error")) := by
  have hfst : (get_badge db font).1 = (update_and_get_user_viewcount db "lxze").1 := by
    unfold get_badge
    dsimp only []
    cases hg : get_user_viewcount (update_and_get_user_viewcount db "lxze").1 "lxze" <;>
      rfl
  refine ⟨?_, ?_, ?_⟩
  · rw [hfst]
    rfl
  · intro v hv
    rw [hfst] at hv
    constructor
    · unfold get_badge
      dsimp only []
      rw [hv]
    · have hlab : "Profile views".data.filter (fun c => !charIsControl c) ≠ [] := by
        decide
      exact render_some (badge_metadata font (toString v.view_count)) hlab
        (int_toString_filter v.view_count)
  · intro hnone
    rw [hfst] at hnone
    unfold get_badge
    dsimp only []
    rw [hnone]

theorem get_badge_spec_witness :
    (get_badge exDb exFont).2 =
      (Renderer.render (badge_metadata exFont (toString (42 : ℤ)))).map
        (fun out => BadgeResponse.ok "image/svg+xml;charset=utf-8"
          "max-age=120, s-maxage=120" out) ∧
    ∃ s, Renderer.render (badge_metadata exFont (toString (42 : ℤ))) = some s :=
  (get_badge_spec exDb exFont).2.1 ⟨"lxze", 42⟩ (by decide)

end VisitorBadge
